import Mathlib

/-!
Verification of `qecc/paulicollections.py` (the `PauliList` class) from the
python-quaec repository, as a shallow embedding in Lean 4.

The repository source provides only `paulicollections.py`.  Its collaborators
(`ensure_pauli`, `elem_gens`, `from_generators`, `Pauli.centralizer_gens`,
`Pauli.as_unitary`, `unitary_reps.mutual_eigenspace`, the `Unspecified`
singleton) live in modules that are not part of the given source tree; where a
claim depends on them they are modelled from the specification, and each such
definition carries a doc comment saying so.  The per-operator centralizer
computation and the eigenspace routine are pure delegation targets, so they
appear as function parameters universally quantified in the theorems.
-/

/-- Single-qubit Pauli letters, the alphabet {I, X, Y, Z} of the spec. -/
inductive PLetter
  | I
  | X
  | Y
  | Z
deriving DecidableEq

/-- Modelled from the spec: a fully specified Pauli operator (external entity
from the Pauli-algebra module, absent from src/): an immutable value over the
alphabet {I, X, Y, Z} per qubit plus a global phase (a power of the imaginary
unit, hence `Fin 4`). -/
structure Pauli where
  op : List PLetter
  ph : Fin 4
deriving DecidableEq

/-- An element stored in a `PauliList`: either a fully specified Pauli or the
`Unspecified` sentinel (modelled, per the spec's design note, as a variant of a
tagged union rather than an identity-compared singleton). -/
inductive Elem
  | pauli (p : Pauli)
  | unspecified
deriving DecidableEq

/-- Raw (dynamically typed) values a caller can pass to the `PauliList`
constructor in Python: a string, an already-constructed Pauli, the
`Unspecified` sentinel, a non-string sequence of further raw values, or any
other object (tagged by a number). -/
inductive Raw
  | str (s : List Char)
  | pauli (p : Pauli)
  | unspecified
  | seq (xs : List Raw)
  | other (tag : Nat)

/-- Errors raised by the embedded operations, mirroring the Python exception
taxonomy of the spec (§7) plus the built-in exceptions the code can raise. -/
inductive PErr
  | invalidOperator
  | indexOutOfRange
  | typeError
  | attributeError
  | dimensionMismatch
deriving DecidableEq

/-- Parse one character of a Pauli string. -/
def parseLetter : Char → Except PErr PLetter
  | 'I' => .ok .I
  | 'X' => .ok .X
  | 'Y' => .ok .Y
  | 'Z' => .ok .Z
  | _ => .error .invalidOperator

/-- Modelled from the spec: the `Pauli` constructor on a string (absent from
src/) — each character names a single-qubit letter, global phase zero. -/
def parsePauli (s : List Char) : Except PErr Pauli := do
  let ls ← s.mapM parseLetter
  return ⟨ls, 0⟩

/-- Modelled from the spec: `ensure_pauli` from the Pauli-algebra service
(absent from src/) — a string is parsed into a PauliOperator, an existing
PauliOperator or the Unspecified sentinel passes through unchanged, and any
other value fails with an InvalidOperatorError. -/
def ensure_pauli : Raw → Except PErr Elem
  | .str s => (parsePauli s).map .pauli
  | .pauli p => .ok (.pauli p)
  | .unspecified => .ok .unspecified
  | .seq _ => .error .invalidOperator
  | .other _ => .error .invalidOperator

/-- The ordered collection of Pauli-operator-or-Unspecified values. -/
structure PauliList where
  elems : List Elem
deriving DecidableEq

/-- Embeds a canonical element back into the raw, dynamically typed world. -/
def elemToRaw : Elem → Raw
  | .pauli p => .pauli p
  | .unspecified => .unspecified

/-- Python's `isinstance(x, Sequence)`: strings and sequences qualify. -/
def Raw.isSequence : Raw → Bool
  | .str _ => true
  | .seq _ => true
  | _ => false

/-- Python's `isinstance(x, str)`. -/
def Raw.isStr : Raw → Bool
  | .str _ => true
  | _ => false

/-- Embedding of `PauliList.__init__(*paulis)`: if there is exactly one
argument which is a sequence and not a string, map `ensure_pauli` over its
elements; otherwise map `ensure_pauli` over the argument list itself. -/
def PauliList.init (args : List Raw) : Except PErr PauliList :=
  match args with
  | [.seq xs] => (xs.mapM ensure_pauli).map PauliList.mk
  | _ => (args.mapM ensure_pauli).map PauliList.mk

/-- Embedding of `PauliList.__getitem__` at a single (non-negative) index:
`list.__getitem__` returns the element itself, or raises IndexError. -/
def PauliList.getItem (pl : PauliList) (i : Nat) : Except PErr Elem :=
  match pl.elems.get? i with
  | some e => .ok e
  | none => .error .indexOutOfRange

/-- Python slice semantics `l[i:j]` for non-negative bounds (out-of-range
bounds clamp, they never raise). -/
def pySlice (l : List α) (i j : Nat) : List α := (l.take j).drop i

/-- Embedding of `PauliList.__getslice__` / slice indexing: the plain-list
slice is re-wrapped through the `PauliList` constructor, variadically. -/
def PauliList.getSlice (pl : PauliList) (i j : Nat) : Except PErr PauliList :=
  PauliList.init ((pySlice pl.elems i j).map elemToRaw)

/-- Embedding of `PauliList.__add__`: the plain-list concatenation of this
list's elements with the right operand (an arbitrary raw sequence) is
re-wrapped through the `PauliList` constructor, variadically. -/
def PauliList.add (pl : PauliList) (other : List Raw) : Except PErr PauliList :=
  PauliList.init (pl.elems.map elemToRaw ++ other)

/-- Modelled from the spec: `elem_gens n` from the Pauli-algebra service
(absent from src/) — the pair of lists of all single-qubit X-type and Z-type
generators for n qubits, each acting with the letter at one position and the
identity elsewhere, phase zero. -/
def elem_gens (n : Nat) : List Pauli × List Pauli :=
  ((List.range n).map fun i =>
      ⟨(List.range n).map fun j => if j = i then .X else .I, 0⟩,
   (List.range n).map fun i =>
      ⟨(List.range n).map fun j => if j = i then .Z else .I, 0⟩)

/-- Python's `len` applied to a collection element: a Pauli reports its qubit
count; the `Unspecified` singleton has no length, so `len` raises TypeError. -/
def elemLen : Elem → Except PErr Nat
  | .pauli p => .ok p.op.length
  | .unspecified => .error .typeError

/-- Calling a Pauli method on a collection element: on `Unspecified`, which
has no such method, Python raises AttributeError. -/
def asPauli : Elem → Except PErr Pauli
  | .pauli p => .ok p
  | .unspecified => .error .attributeError

/-- Embedding of the recursion of `PauliList.centralizer_gens` after the
default `group_gens` has been resolved, parametric in the external
per-operator service `Pauli.centralizer_gens` (`pcg`, absent from src/):
an empty list returns `PauliList(group_gens)` (the generator set re-wrapped,
as a single sequence argument, through the constructor); otherwise
`centralizer_0 = self[0].centralizer_gens(group_gens=group_gens)` is computed,
returned when the list has exactly one element, and otherwise narrowed by
recursing on `self[1:]` (the tail — `__getslice__` re-wraps it through the
constructor, which `init_rewrap` below proves is the identity on canonical
elements) with `centralizer_0` as the new generator set. -/
def centralizerAux (pcg : Pauli → List Elem → Except PErr PauliList) :
    List Elem → List Elem → Except PErr PauliList
  | [], gg => PauliList.init [Raw.seq (gg.map elemToRaw)]
  | e :: rest, gg => do
    let p ← asPauli e
    let c0 ← pcg p gg
    match rest with
    | [] => pure c0
    | _ :: _ => centralizerAux pcg rest c0.elems

/-- Embedding of `PauliList.centralizer_gens(self, group_gens=None)`: when
`group_gens` is omitted, it defaults to `Xs + Zs` where
`Xs, Zs = elem_gens(len(self[0]))` — note this reads `self[0]` (IndexError on
an empty list) before the length-zero test; then the recursion of
`centralizerAux` runs. -/
def PauliList.centralizer_gens (pcg : Pauli → List Elem → Except PErr PauliList)
    (pl : PauliList) (group_gens : Option (List Elem)) : Except PErr PauliList := do
  let gg ← match group_gens with
    | some g => pure g
    | none => do
        let e0 ← pl.getItem 0
        let n ← elemLen e0
        pure (((elem_gens n).1 ++ (elem_gens n).2).map Elem.pauli)
  centralizerAux pcg pl.elems gg

/-- Is this element the `Unspecified` sentinel? (`P is not Unspecified` in the
source becomes the variant test, per the spec's design note.) -/
def Elem.isUnspecified : Elem → Bool
  | .pauli _ => false
  | .unspecified => true

/-- Embedding of `PauliList.stabilizer_subspace`, parametric in the two
external collaborators absent from src/ — `Pauli.as_unitary` (`as_unitary`)
and `unitary_reps.mutual_eigenspace` (`meig`): the list comprehension
`[P.as_unitary() for P in self if P is not Unspecified]` filters the
collection to its specified elements, converts each to its unitary, and the
result is handed to the eigenspace routine. -/
def PauliList.stabilizer_subspace {U A : Type} (as_unitary : Pauli → U)
    (meig : List U → A) (pl : PauliList) : A :=
  meig (pl.elems.filterMap fun P =>
    match P with
    | .pauli p => some (as_unitary p)
    | .unspecified => none)

/-- Product of two single-qubit Pauli letters: the resulting letter together
with the exponent k of the phase i^k it contributes. -/
def mulLetter : PLetter → PLetter → Fin 4 × PLetter
  | .I, b => (0, b)
  | a, .I => (0, a)
  | .X, .X => (0, .I)
  | .Y, .Y => (0, .I)
  | .Z, .Z => (0, .I)
  | .X, .Y => (1, .Z)
  | .Y, .X => (3, .Z)
  | .Y, .Z => (1, .X)
  | .Z, .Y => (3, .X)
  | .Z, .X => (1, .Y)
  | .X, .Z => (3, .Y)

/-- Modelled from the spec: multiplication of two fully specified Pauli
operators of equal qubit-count (Pauli-algebra service, absent from src/),
letterwise with phase accumulation. -/
def mulPauli (p q : Pauli) : Pauli :=
  let pairs := List.zipWith mulLetter p.op q.op
  ⟨pairs.map Prod.snd, p.ph + q.ph + (pairs.map Prod.fst).sum⟩

/-- The identity Pauli on n qubits. -/
def idPauli (n : Nat) : Pauli := ⟨List.replicate n .I, 0⟩

/-- One round of closing a set of Paulis under right-multiplication by the
generators, removing duplicates. -/
def closureStep (gens cur : List Pauli) : List Pauli :=
  (cur ++ cur.flatMap fun c => gens.map (mulPauli c)).dedup

/-- Group closure of a generator list on n qubits, by iterating `closureStep`
from the identity; 4^(n+1) rounds exceed the order of the n-qubit Pauli group,
so the iteration has reached its fixpoint. -/
def groupClosure (n : Nat) (gens : List Pauli) : List Pauli :=
  (4 ^ (n + 1)).iterate (closureStep gens) [idPauli n]

/-- Modelled from the spec: `from_generators` (group-enumeration service,
absent from src/) — given generators, enumerate the generated group, the full
closure under multiplication including the identity; per the spec it must fail
fast with an InvalidOperatorError when a generator is Unspecified, rather than
enumerating anything, and the generators must share one qubit-count. -/
def from_generators (gens : List Elem) : Except PErr (List Pauli) :=
  if gens.any Elem.isUnspecified then .error .invalidOperator
  else
    match gens.mapM asPauli with
    | .error e => .error e
    | .ok [] => .ok []
    | .ok (g :: gs) =>
      if gs.all fun h => h.op.length = g.op.length then
        .ok (groupClosure g.op.length (g :: gs))
      else .error .dimensionMismatch

/-- Embedding of `PauliList.generated_group`: pure delegation to
`from_generators` on the collection itself. -/
def PauliList.generated_group (pl : PauliList) : Except PErr (List Pauli) :=
  from_generators pl.elems

/-- Does the argument list consist of exactly one non-string sequence (the
case the constructor expands element-wise)? -/
def singletonSeqArg : List Raw → Bool
  | [r] => r.isSequence && !r.isStr
  | _ => false

/-- A trivial concrete instance of the external per-operator centralizer
service, used to instantiate parametric theorems on concrete inputs. -/
def pcgTriv : Pauli → List Elem → Except PErr PauliList :=
  fun _ gg => .ok ⟨gg⟩

/-- Canonical elements pass through `ensure_pauli` unchanged. -/
theorem ensure_pauli_elemToRaw (e : Elem) : ensure_pauli (elemToRaw e) = .ok e := by
  cases e <;> rfl

/-- A list of canonical elements passes through elementwise coercion
unchanged. -/
theorem mapM_ensure_pauli_elemToRaw (l : List Elem) :
    (l.map elemToRaw).mapM ensure_pauli = .ok l := by
  induction l with
  | nil => rfl
  | cons e t ih =>
    rw [List.map_cons, List.mapM_cons, ensure_pauli_elemToRaw, ih]
    rfl

/-- When the argument list is not a single non-string sequence, the
constructor takes its else-branch: elementwise coercion of the arguments. -/
theorem init_no_seq (args : List Raw) (h : singletonSeqArg args = false) :
    PauliList.init args = (args.mapM ensure_pauli).map PauliList.mk := by
  match args with
  | [] => rfl
  | [r] =>
    cases r with
    | seq xs => simp [singletonSeqArg, Raw.isSequence, Raw.isStr] at h
    | str s => rfl
    | pauli p => rfl
    | unspecified => rfl
    | other t => rfl
  | r :: r₂ :: t => cases r <;> rfl

/-- A list of canonical elements is never a single non-string sequence
argument. -/
theorem singletonSeqArg_elemToRaw (l : List Elem) :
    singletonSeqArg (l.map elemToRaw) = false := by
  cases l with
  | nil => rfl
  | cons e t =>
    cases t with
    | nil => cases e <;> rfl
    | cons f u => rfl

/-- Re-wrapping a list of canonical elements through the variadic constructor
is the identity: this is what `__getslice__` and `__add__` do to elements that
are already Paulis or Unspecified. -/
theorem init_rewrap (l : List Elem) :
    PauliList.init (l.map elemToRaw) = .ok ⟨l⟩ := by
  rw [init_no_seq _ (singletonSeqArg_elemToRaw l), mapM_ensure_pauli_elemToRaw l]
  rfl

/-- C1: for every collection of length at least two and every explicitly
supplied generator set, `centralizer_gens` computes the centralizer generators
of the first element against `group_gens` and then recursively computes
`centralizer_gens` of the remaining elements with that intermediate result as
the new generator set, narrowing first-to-last. -/
theorem centralizer_gens_recursion
    (pcg : Pauli → List Elem → Except PErr PauliList)
    (e e₂ : Elem) (rest : List Elem) (gg : List Elem) :
    PauliList.centralizer_gens pcg ⟨e :: e₂ :: rest⟩ (some gg) =
      (do
        let p ← asPauli e
        let c0 ← pcg p gg
        PauliList.centralizer_gens pcg ⟨e₂ :: rest⟩ (some c0.elems)) := by
  cases he : asPauli e with
  | error err => simp [PauliList.centralizer_gens, centralizerAux, he]
  | ok p =>
    cases hc : pcg p gg with
    | error err => simp [PauliList.centralizer_gens, centralizerAux, he, hc]
    | ok c0 => simp [PauliList.centralizer_gens, centralizerAux, he, hc]

/-- C2 counterexample: on an empty collection with `group_gens` omitted,
`centralizer_gens` does not return the standard X/Z generator set (here
instantiated at one qubit and at a concrete per-operator service): it raises
an IndexError reading `self[0]` while resolving the default. -/
theorem centralizer_gens_empty_default_not_std :
    PauliList.centralizer_gens pcgTriv ⟨[]⟩ none ≠
      .ok ⟨((elem_gens 1).1 ++ (elem_gens 1).2).map Elem.pauli⟩ :=
  fun h => Except.noConfusion h

/-- C2 (amended): on an empty collection with `group_gens` omitted, resolving
the default generator set reads the first element to determine the qubit count
and therefore raises an IndexError; no generator set is returned. -/
theorem centralizer_gens_empty_default_index_error
    (pcg : Pauli → List Elem → Except PErr PauliList) :
    PauliList.centralizer_gens pcg ⟨[]⟩ none = .error .indexOutOfRange := rfl

/-- C5: on an empty collection with an explicitly supplied generator set,
`centralizer_gens` returns `group_gens` itself wrapped as a collection, its
elements unchanged and in the same order. -/
theorem centralizer_gens_empty_explicit
    (pcg : Pauli → List Elem → Except PErr PauliList) (gg : List Elem) :
    PauliList.centralizer_gens pcg ⟨[]⟩ (some gg) = .ok ⟨gg⟩ := by
  show PauliList.init [Raw.seq (gg.map elemToRaw)] = .ok ⟨gg⟩
  show (Except.map PauliList.mk ((gg.map elemToRaw).mapM ensure_pauli)) = .ok ⟨gg⟩
  rw [mapM_ensure_pauli_elemToRaw gg]
  rfl

/-- C6: on a one-element, fully specified collection with an explicitly
supplied generator set, `centralizer_gens` equals the element's own
per-operator centralizer-generator computation against `group_gens`. -/
theorem centralizer_gens_singleton
    (pcg : Pauli → List Elem → Except PErr PauliList) (p : Pauli) (gg : List Elem) :
    PauliList.centralizer_gens pcg ⟨[Elem.pauli p]⟩ (some gg) = pcg p gg := by
  have h : PauliList.centralizer_gens pcg ⟨[Elem.pauli p]⟩ (some gg) =
      Except.bind (pcg p gg) Except.ok := rfl
  rw [h]
  cases pcg p gg <;> rfl

/-- Extracting the unitaries of the specified elements ignores the elements a
filter on the Unspecified test has already removed. -/
theorem filterMap_spec_eq_filter {U : Type} (as_unitary : Pauli → U) (l : List Elem) :
    (l.filterMap fun P =>
        match P with
        | Elem.pauli p => some (as_unitary p)
        | Elem.unspecified => none) =
      ((l.filter fun P => !P.isUnspecified).filterMap fun P =>
        match P with
        | Elem.pauli p => some (as_unitary p)
        | Elem.unspecified => none) := by
  induction l with
  | nil => rfl
  | cons e t ih =>
    cases e <;>
      simp [List.filterMap_cons, List.filter_cons, Elem.isUnspecified, ih]

/-- Extracting the unitaries of the specified elements is the same as first
extracting the specified Paulis and then converting each to its unitary. -/
theorem filterMap_spec_as_map {U : Type} (as_unitary : Pauli → U) (l : List Elem) :
    (l.filterMap fun P =>
        match P with
        | Elem.pauli p => some (as_unitary p)
        | Elem.unspecified => none) =
      (l.filterMap fun P =>
        match P with
        | Elem.pauli p => some p
        | Elem.unspecified => none).map as_unitary := by
  induction l with
  | nil => rfl
  | cons e t ih => cases e <;> simp [List.filterMap_cons, ih]

/-- C3: `stabilizer_subspace` drops Unspecified entries without error — its
result equals `stabilizer_subspace` of the sub-collection of fully specified
elements — and it is the mutual-eigenspace routine applied to the list of
unitary representations of those remaining elements. -/
theorem stabilizer_subspace_drops_unspecified {U A : Type}
    (as_unitary : Pauli → U) (meig : List U → A) (pl : PauliList) :
    pl.stabilizer_subspace as_unitary meig =
        (PauliList.mk (pl.elems.filter fun P => !P.isUnspecified)).stabilizer_subspace
          as_unitary meig
      ∧ pl.stabilizer_subspace as_unitary meig =
        meig ((pl.elems.filterMap fun P =>
          match P with
          | Elem.pauli p => some p
          | Elem.unspecified => none).map as_unitary) := by
  constructor
  · exact congrArg meig (filterMap_spec_eq_filter as_unitary pl.elems)
  · exact congrArg meig (filterMap_spec_as_map as_unitary pl.elems)

/-- C4: on any collection containing an Unspecified element,
`generated_group` fails fast with an InvalidOperatorError and enumerates no
group elements. -/
theorem generated_group_unspecified_error (pl : PauliList)
    (h : Elem.unspecified ∈ pl.elems) :
    pl.generated_group = .error .invalidOperator := by
  unfold PauliList.generated_group from_generators
  rw [if_pos]
  exact List.any_eq_true.mpr ⟨Elem.unspecified, h, rfl⟩

/-- A concrete instance of `generated_group_unspecified_error`: the collection
`['XX', Unspecified]` contains an Unspecified element and its
`generated_group` is the InvalidOperatorError. -/
theorem generated_group_unspecified_error_witness :
    Elem.unspecified ∈ (PauliList.mk [Elem.pauli ⟨[.X, .X], 0⟩, Elem.unspecified]).elems
      ∧ (PauliList.mk [Elem.pauli ⟨[.X, .X], 0⟩, Elem.unspecified]).generated_group =
          .error .invalidOperator :=
  ⟨by decide, generated_group_unspecified_error _ (by decide)⟩

/-- C7 counterexample: for the element list `[seq []]` (a single element that
is itself a sequence), constructing from it as one sequence argument fails
with an InvalidOperatorError (the inner sequence is not a valid operator),
while passing the same element variadically expands it, yielding the empty
collection — so the two construction forms differ. -/
theorem init_singleton_seq_ne_variadic :
    PauliList.init [Raw.seq [Raw.seq []]] ≠ PauliList.init [Raw.seq []] :=
  fun h => Except.noConfusion h

/-- C7 (amended): constructing from a single non-string sequence argument
yields the same collection as constructing from the same elements passed
variadically, provided the element list is not itself a single non-string
sequence (which the variadic constructor would expand element-wise instead of
coercing). -/
theorem init_singleton_seq_eq_variadic (elems : List Raw)
    (h : singletonSeqArg elems = false) :
    PauliList.init [Raw.seq elems] = PauliList.init elems := by
  rw [init_no_seq elems h]
  rfl

/-- A concrete instance of `init_singleton_seq_eq_variadic` on the element
list of the two strings `X` and `Z`. -/
theorem init_singleton_seq_eq_variadic_witness :
    singletonSeqArg [Raw.str ['X'], Raw.str ['Z']] = false
      ∧ PauliList.init [Raw.seq [Raw.str ['X'], Raw.str ['Z']]] =
          PauliList.init [Raw.str ['X'], Raw.str ['Z']] :=
  ⟨rfl, init_singleton_seq_eq_variadic _ rfl⟩

/-- C8: the collection type is closed under its sequence operations — a
single-position index returns the stored element unchanged, a slice returns a
`PauliList` wrapping exactly the sliced elements, and concatenating two
collections returns a `PauliList` whose elements are those of the first
operand followed by those of the second. -/
theorem pauliList_closed_sequence_ops (pl ql : PauliList) (i j : Nat) :
    (∀ h : i < pl.elems.length, pl.getItem i = .ok (pl.elems.get ⟨i, h⟩))
      ∧ pl.getSlice i j = .ok ⟨pySlice pl.elems i j⟩
      ∧ pl.add (ql.elems.map elemToRaw) = .ok ⟨pl.elems ++ ql.elems⟩ := by
  refine ⟨fun h => ?_, ?_, ?_⟩
  · unfold PauliList.getItem
    rw [List.get?_eq_get h]
  · exact init_rewrap _
  · unfold PauliList.add
    rw [← List.map_append]
    exact init_rewrap _

/-- A concrete instance of `pauliList_closed_sequence_ops` on the collection
`[Unspecified, X]` and the collection `[Z]`. -/
theorem pauliList_closed_sequence_ops_witness :
    (PauliList.mk [Elem.unspecified, Elem.pauli ⟨[.X], 0⟩]).getItem 0 = .ok Elem.unspecified
      ∧ (PauliList.mk [Elem.unspecified, Elem.pauli ⟨[.X], 0⟩]).getSlice 0 2 =
          .ok ⟨[Elem.unspecified, Elem.pauli ⟨[.X], 0⟩]⟩
      ∧ (PauliList.mk [Elem.unspecified, Elem.pauli ⟨[.X], 0⟩]).add
            ((PauliList.mk [Elem.pauli ⟨[.Z], 0⟩]).elems.map elemToRaw) =
          .ok ⟨[Elem.unspecified, Elem.pauli ⟨[.X], 0⟩, Elem.pauli ⟨[.Z], 0⟩]⟩ := by
  have h := pauliList_closed_sequence_ops ⟨[Elem.unspecified, Elem.pauli ⟨[.X], 0⟩]⟩
      ⟨[Elem.pauli ⟨[.Z], 0⟩]⟩ 0 2
  exact ⟨h.1 (by decide), h.2.1, h.2.2⟩

/-- C9: constructing from exactly one string argument yields the one-element
collection holding the Pauli parsed from that string (or the parse failure);
the string is never expanded character-by-character. -/
theorem init_single_string (s : List Char) :
    PauliList.init [Raw.str s] =
      (parsePauli s).map fun p => PauliList.mk [Elem.pauli p] := by
  rw [init_no_seq [Raw.str s] rfl]
  show Except.map PauliList.mk
      (Except.bind (Except.map Elem.pauli (parsePauli s)) fun e => Except.ok [e]) = _
  cases parsePauli s <;> rfl

/-- Unfolding of the string case of the coercion. -/
theorem ensure_pauli_str (s : List Char) :
    ensure_pauli (Raw.str s) = (parsePauli s).map Elem.pauli := rfl

/-- Coercing a list of strings elementwise parses each into a Pauli. -/
theorem mapM_ensure_pauli_strs (ss : List (List Char)) :
    (ss.map Raw.str).mapM ensure_pauli =
      (ss.mapM parsePauli).map fun ps => ps.map Elem.pauli := by
  induction ss with
  | nil => rfl
  | cons s t ih =>
    rw [List.map_cons, List.mapM_cons, List.mapM_cons, ensure_pauli_str, ih]
    cases parsePauli s with
    | error err => rfl
    | ok p => cases t.mapM parsePauli <;> rfl

/-- A canonical-elements-then-strings argument list is never a single
non-string sequence. -/
theorem singletonSeqArg_elems_strs (l : List Elem) (ss : List (List Char)) :
    singletonSeqArg (l.map elemToRaw ++ ss.map Raw.str) = false := by
  cases l with
  | nil =>
    cases ss with
    | nil => rfl
    | cons s t => cases t <;> rfl
  | cons e t =>
    simp only [List.map_cons, List.cons_append]
    cases hX : t.map elemToRaw ++ ss.map Raw.str with
    | nil => cases e <;> rfl
    | cons b u => rfl

/-- C10: every element of a collection produced by the constructor (hence
also by slicing and concatenation, which re-enter the constructor) is in
canonical form, a fixed point of the `ensure_pauli` coercion; in particular,
concatenating a collection with a plain sequence of raw strings yields a
collection extending the original elements with the parsed Paulis of those
strings. -/
theorem pauliList_canonical_closure (pl : PauliList) (ss : List (List Char))
    (ps : List Pauli) (h : ss.mapM parsePauli = .ok ps) :
    (∀ args ql, PauliList.init args = .ok ql →
        ∀ e ∈ ql.elems, ensure_pauli (elemToRaw e) = .ok e)
      ∧ pl.add (ss.map Raw.str) = .ok ⟨pl.elems ++ ps.map Elem.pauli⟩ := by
  constructor
  · intro args ql hinit e he
    exact ensure_pauli_elemToRaw e
  · unfold PauliList.add
    rw [init_no_seq _ (singletonSeqArg_elems_strs pl.elems ss), List.mapM_append,
      mapM_ensure_pauli_elemToRaw, mapM_ensure_pauli_strs, h]
    rfl

/-- A concrete instance of `pauliList_canonical_closure`: appending the raw
strings `X` and `Z` to the collection `[Unspecified]`. -/
theorem pauliList_canonical_closure_witness :
    ([['X'], ['Z']] : List (List Char)).mapM parsePauli =
        .ok [⟨[.X], 0⟩, ⟨[.Z], 0⟩]
      ∧ ((∀ args ql, PauliList.init args = .ok ql →
            ∀ e ∈ ql.elems, ensure_pauli (elemToRaw e) = .ok e)
        ∧ (PauliList.mk [Elem.unspecified]).add ([['X'], ['Z']].map Raw.str) =
            .ok ⟨[Elem.unspecified] ++
              ([⟨[.X], 0⟩, ⟨[.Z], 0⟩] : List Pauli).map Elem.pauli⟩) :=
  ⟨rfl, pauliList_canonical_closure ⟨[Elem.unspecified]⟩ [['X'], ['Z']]
    [⟨[.X], 0⟩, ⟨[.Z], 0⟩] rfl⟩
